import Mathlib

/-!
Scenario-settings expansion engine: data model, resolver and validator.

A shallow embedding of the scenario-settings machinery of PowerGenome, as presented
in `notebooks/Scenario management.ipynb`.  Settings are nested YAML-style
dictionaries; `settings_management` is an override catalog keyed by planning
year, sensitivity axis (a scenario-definition column) and value name; each
scenario row selects one value per axis and `build_scenario_settings` merges
the selected override fragments into a copy of the baseline settings by
searching for key/value pairs and updating them (mappings merge by key,
scalars and lists are replaced wholesale).

The implementation of `build_scenario_settings`, `update_dictionary` and
`check_settings` lives in `powergenome/util.py`, which is not part of this
source snapshot (the notebook only imports and calls them), so the resolver
and validator below are modelled from the description in the specification of
their behaviour.
-/

/-- A YAML-style settings value: scalar string, scalar integer, sequence, or
nested mapping (an insertion-ordered dictionary, as in Python). -/
inductive CVal where
  | str : String → CVal
  | int : Int → CVal
  | seq : List CVal → CVal
  | map : List (String × CVal) → CVal
  deriving Repr

/-- A settings dictionary: an insertion-ordered association list, mirroring a
Python `dict` from parameter name to value. -/
abbrev Settings := List (String × CVal)

/-- Dictionary lookup (`d.get(key)`): the value of the first binding of
`key`, or `none` when absent. -/
def getKey : Settings → String → Option CVal
  | [], _ => none
  | (k, v) :: rest, key => if k = key then some v else getKey rest key

/-- Dictionary assignment (`d[key] = val`): replace the value in place when
the key exists (keeping its position, as Python dicts do), otherwise append
the new binding at the end. -/
def setKey : Settings → String → CVal → Settings
  | [], key, val => [(key, val)]
  | (k, v) :: rest, key, val =>
    if k = key then (k, val) :: rest else (k, v) :: setKey rest key val

/-- The underlying mapping of an optional value: the bindings when the value
is a nested mapping, and the empty mapping otherwise (`d.get(k, {})` with a
fresh target when the existing value is not a mapping). -/
def subMap : Option CVal → Settings
  | some (.map m) => m
  | _ => []

mutual

/-- Modelled from the spec: the deep merge performed by
`powergenome.util.update_dictionary` (absent from this source snapshot; the
notebook documents it as updating a dictionary by searching for key/value
pairs).  For every `(k, v)` in the fragment `u`: when `v` is a nested
mapping its keys are merged recursively into the existing mapping at `k`,
otherwise (scalar or sequence) the existing value at `k` is replaced
wholesale. -/
def updateDict (d : Settings) : Settings → Settings
  | [] => d
  | (k, v) :: rest => updateDict (setKey d k (mergedVal (getKey d k) v)) rest

/-- The value stored at a key after merging fragment value `v` over the
existing optional value `o`: nested mappings merge recursively, anything
else replaces. -/
def mergedVal (o : Option CVal) : CVal → CVal
  | .map m => .map (updateDict (subMap o) m)
  | v => v

end

/-- The keys of a settings dictionary, in order. -/
def keysOf (d : Settings) : List String :=
  d.map (fun p => p.1)

mutual

/-- Well-formedness of a settings value: every nested mapping anywhere
inside has duplicate-free keys (automatic for structures read from Python
dicts / YAML mappings). -/
def wfV : CVal → Bool
  | .str _ => true
  | .int _ => true
  | .seq _ => true
  | .map m => wfS m

/-- Well-formedness of a settings dictionary: its keys are duplicate-free
and all nested values are well-formed. -/
def wfS : Settings → Bool
  | [] => true
  | (k, v) :: rest => !((keysOf rest).contains k) && wfV v && wfS rest

end

/-- One row of the scenario-definitions table: a case identifier, a planning
year, and the selected value name for each sensitivity axis (one table
column per axis). -/
structure ScenarioRow where
  case_id : String
  planning_year : Int
  axis_selections : List (String × String)

/-- An override fragment: the partial settings patch registered for one
(planning year, axis, value) triple. -/
abbrev Fragment := Settings

/-- The override catalog for one planning year: for each axis (in
declaration order) the named alternative fragments. -/
abbrev AxisCatalog := List (String × List (String × Fragment))

/-- The override catalog (`settings_management`): planning year → axis →
value name → fragment. -/
abbrev Catalog := List (Int × AxisCatalog)

/-- Lookup in an integer-keyed association list. -/
def getYear : Catalog → Int → Option AxisCatalog
  | [], _ => none
  | (y, a) :: rest, year => if y = year then some a else getYear rest year

/-- String-keyed association-list lookup (for axis selections and value
names). -/
def getStr {α : Type} : List (String × α) → String → Option α
  | [], _ => none
  | (k, v) :: rest, key => if k = key then some v else getStr rest key

/-- Modelled from the spec: one step of the walk of the resolver over the
catalog axes (in catalog declaration order).  If the row selects no value
for this axis, or the selected value has no registered fragment, the step is
a silent no-op; otherwise the fragment is deep-merged into the working
configuration. -/
def axisStep (sel : List (String × String)) (cfg : Settings)
    (entry : String × List (String × Fragment)) : Settings :=
  match getStr sel entry.1 with
  | none => cfg
  | some valName =>
    match getStr entry.2 valName with
    | none => cfg
    | some frag => updateDict cfg frag

/-- Modelled from the spec: resolve one scenario row against the baseline
configuration and the override catalog (the per-row core of
`build_scenario_settings`, absent from this source snapshot).  Starting from
a copy of the baseline, the applicable override fragments are merged in,
axis by axis in catalog declaration order for the planning year of the row;
a year absent from the catalog means no overrides apply. -/
def resolveRow (baseline : Settings) (catalog : Catalog) (row : ScenarioRow) :
    Settings :=
  ((getYear catalog row.planning_year).getD []).foldl
    (axisStep row.axis_selections) baseline

/-- The override fragments that actually apply to a row, in catalog
declaration order: one per axis for which the row selects a value that has a
registered fragment. -/
def applicableFrags (catalog : Catalog) (row : ScenarioRow) : List Fragment :=
  ((getYear catalog row.planning_year).getD []).filterMap
    (fun entry => (getStr row.axis_selections entry.1).bind
      (fun valName => getStr entry.2 valName))

/-- Modelled from the spec: the full resolver output, one resolved
configuration per scenario row, keyed by (planning year, case id). -/
def resolveAll (baseline : Settings) (catalog : Catalog)
    (rows : List ScenarioRow) : List ((Int × String) × Settings) :=
  rows.map (fun r => ((r.planning_year, r.case_id), resolveRow baseline catalog r))

/-- The integers of a sequence of settings values, when they are all
integers. -/
def intItems : List CVal → Option (List Int)
  | [] => some []
  | .int n :: rest => (intItems rest).map (fun ns => n :: ns)
  | _ => none

/-- Read a planning-year parameter: either a single integer year or a
sequence of integer years. -/
def getIntList : Option CVal → Option (List Int)
  | some (.seq xs) => intItems xs
  | some (.int n) => some [n]
  | _ => none

/-- Modelled from the spec: the declared planning periods of a
configuration.  `model_year` and `model_first_planning_year` must be paired
lists of equal length; a mismatch is an error (never a silent truncation to
the shorter list). -/
def declaredPeriods (cfg : Settings) : Except String (List Int) :=
  match getIntList (getKey cfg "model_year"),
      getIntList (getKey cfg "model_first_planning_year") with
  | some ys, some fs =>
    if ys.length = fs.length then .ok ys
    else .error "model_year and model_first_planning_year have mismatched lengths"
  | _, _ => .error "missing or malformed model_year or model_first_planning_year"

/-- Modelled from the spec: resolve one row with its per-row failure
semantics.  A malformed planning-year list, or a planning year absent from
the declared planning periods of the baseline, fails this row with a descriptive
error; otherwise the row resolves normally. -/
def resolveRowChecked (baseline : Settings) (catalog : Catalog)
    (row : ScenarioRow) : Except String Settings :=
  match declaredPeriods baseline with
  | .error e => .error e
  | .ok ys =>
    if row.planning_year ∈ ys then .ok (resolveRow baseline catalog row)
    else .error ("planning_year " ++ toString row.planning_year ++ " of case "
      ++ row.case_id ++ " is not among the declared planning periods")

/-- Modelled from the spec: resolve a whole batch of scenario rows.  Every
row is processed; a failing row carries its error while the other rows still
resolve (partial failure, no abort). -/
def resolveBatch (baseline : Settings) (catalog : Catalog)
    (rows : List ScenarioRow) : List (ScenarioRow × Except String Settings) :=
  rows.map (fun r => (r, resolveRowChecked baseline catalog r))

/-- Modelled from the spec: the failing rows of a batch, collected together
(with their errors) for reporting at the end. -/
def failedRows (results : List (ScenarioRow × Except String Settings)) :
    List (ScenarioRow × String) :=
  results.filterMap (fun p =>
    match p.2 with
    | .error e => some (p.1, e)
    | .ok _ => none)

/-- The kinds of validation findings. -/
inductive ErrKind where
  | schemaError
  | shapeMismatchError
  | unresolvedReferenceError
  | duplicateRowError
  deriving Repr, DecidableEq

/-- A structured validation finding. -/
structure Issue where
  kind : ErrKind
  severity : String
  case_id : String
  planning_year : Int
  message : String

/-- Modelled from the spec: the planning-period check of the validator for one
resolved configuration.  Paired `model_year` / `model_first_planning_year`
sequences of unequal length produce a `shapeMismatchError` Issue. -/
def validateOne (cid : String) (yr : Int) (cfg : Settings) : List Issue :=
  match getIntList (getKey cfg "model_year"),
      getIntList (getKey cfg "model_first_planning_year") with
  | some ys, some fs =>
    if ys.length = fs.length then []
    else [⟨.shapeMismatchError, "error", cid, yr,
      "model_year and model_first_planning_year have mismatched lengths"⟩]
  | _, _ => []

/-- Modelled from the spec: `validate(resolvedConfigs) -> list[Issue]`.  A
total function over the whole batch of resolved configurations: the findings
of every configuration are concatenated and reported together, never raised
one at a time. -/
def validate (configs : List (String × Int × Settings)) : List Issue :=
  configs.flatMap (fun c => validateOne c.1 c.2.1 c.2.2)

/-- Is the nested key path present in the settings dictionary?  Used to
state which baseline keys survive into a resolved configuration. -/
def pathPresent : Settings → List String → Bool
  | _, [] => true
  | d, [k] => (getKey d k).isSome
  | d, k :: rest =>
    match getKey d k with
    | some (.map m) => pathPresent m rest
    | _ => false

/-! ## Basic dictionary lemmas -/

theorem getKey_setKey_self (d : Settings) (k : String) (v : CVal) :
    getKey (setKey d k v) k = some v := by
  induction d with
  | nil => simp [setKey, getKey]
  | cons p rest ih =>
    obtain ⟨k1, v1⟩ := p
    by_cases h : k1 = k
    · simp [setKey, getKey, h]
    · simp [setKey, getKey, h, ih]

theorem getKey_setKey_ne (d : Settings) (k k2 : String) (v : CVal)
    (h : k2 ≠ k) : getKey (setKey d k v) k2 = getKey d k2 := by
  induction d with
  | nil =>
    simp only [setKey, getKey]
    rw [if_neg (fun hc => h hc.symm)]
  | cons p rest ih =>
    obtain ⟨k1, v1⟩ := p
    by_cases h1 : k1 = k
    · subst h1
      simp only [setKey, if_pos rfl, getKey]
      rw [if_neg (fun hc => h hc.symm), if_neg (fun hc => h hc.symm)]
    · simp only [setKey, if_neg h1, getKey]
      by_cases h2 : k1 = k2
      · rw [if_pos h2, if_pos h2]
      · rw [if_neg h2, if_neg h2, ih]

theorem setKey_of_getKey_eq (d : Settings) (k : String) (v : CVal)
    (h : getKey d k = some v) : setKey d k v = d := by
  induction d with
  | nil => simp [getKey] at h
  | cons p rest ih =>
    obtain ⟨k1, v1⟩ := p
    by_cases h1 : k1 = k
    · simp only [getKey, if_pos h1, Option.some.injEq] at h
      simp [setKey, h1, h]
    · simp only [getKey, if_neg h1] at h
      simp [setKey, h1, ih h]

theorem getKey_eq_none_iff (d : Settings) (k : String) :
    getKey d k = none ↔ k ∉ keysOf d := by
  induction d with
  | nil => simp [getKey, keysOf]
  | cons p rest ih =>
    obtain ⟨k1, v1⟩ := p
    simp only [getKey, keysOf, List.map_cons, List.mem_cons]
    by_cases h1 : k1 = k
    · simp [h1]
    · rw [if_neg h1]
      constructor
      · intro h hc
        rcases hc with hc | hc
        · exact h1 hc.symm
        · exact (ih.mp h) hc
      · intro h
        exact ih.mpr (fun hc => h (Or.inr hc))

theorem getKey_mem (d : Settings) (k : String) (v : CVal)
    (h : getKey d k = some v) : (k, v) ∈ d := by
  induction d with
  | nil => simp [getKey] at h
  | cons p rest ih =>
    obtain ⟨k1, v1⟩ := p
    by_cases h1 : k1 = k
    · subst h1
      simp [getKey] at h
      subst h
      exact List.mem_cons_self _ _
    · simp only [getKey, if_neg h1] at h
      exact List.mem_cons_of_mem _ (ih h)

theorem mem_keysOf_setKey (d : Settings) (k k2 : String) (v : CVal) :
    k2 ∈ keysOf (setKey d k v) ↔ k2 ∈ keysOf d ∨ k2 = k := by
  induction d with
  | nil => simp [setKey, keysOf]
  | cons p rest ih =>
    obtain ⟨k1, v1⟩ := p
    by_cases h1 : k1 = k
    · subst h1
      by_cases h2 : k2 = k1 <;> simp [setKey, keysOf, h2]
    · simp only [setKey, if_neg h1, keysOf, List.map_cons, List.mem_cons]
      constructor
      · rintro (h | h)
        · exact Or.inl (Or.inl h)
        · rcases (ih).mp h with h3 | h3
          · exact Or.inl (Or.inr h3)
          · exact Or.inr h3
      · rintro ((h | h) | h)
        · exact Or.inl h
        · exact Or.inr ((ih).mpr (Or.inl h))
        · exact Or.inr ((ih).mpr (Or.inr h))

theorem keysOf_setKey_of_mem (d : Settings) (k : String) (v : CVal)
    (h : k ∈ keysOf d) : keysOf (setKey d k v) = keysOf d := by
  induction d with
  | nil => simp [keysOf] at h
  | cons p rest ih =>
    obtain ⟨k1, v1⟩ := p
    by_cases h1 : k1 = k
    · simp [setKey, keysOf, h1]
    · simp only [keysOf, List.map_cons, List.mem_cons] at h
      rcases h with h | h
      · exact absurd h.symm h1
      · have h2 := ih h
        simp only [setKey, if_neg h1, keysOf, List.map_cons]
        simp only [keysOf] at h2
        rw [h2]

theorem nodup_keysOf_setKey (d : Settings) (k : String) (v : CVal)
    (h : (keysOf d).Nodup) : (keysOf (setKey d k v)).Nodup := by
  induction d with
  | nil => simp [setKey, keysOf]
  | cons p rest ih =>
    obtain ⟨k1, v1⟩ := p
    simp only [keysOf, List.map_cons, List.nodup_cons] at h
    by_cases h1 : k1 = k
    · simp only [setKey, if_pos h1, keysOf, List.map_cons, List.nodup_cons]
      exact h
    · simp only [setKey, if_neg h1, keysOf, List.map_cons, List.nodup_cons]
      refine ⟨fun hc => ?_, ih h.2⟩
      rcases (mem_keysOf_setKey rest k k1 v).mp hc with h2 | h2
      · exact h.1 h2
      · exact h1 h2

/-! ## Well-formedness lemmas -/

theorem wfS_cons_iff (k : String) (v : CVal) (rest : Settings) :
    wfS ((k, v) :: rest) = true ↔
      (k ∉ keysOf rest ∧ wfV v = true ∧ wfS rest = true) := by
  simp [wfS, List.contains, List.elem_iff, and_assoc]

theorem wfS_nodupKeys (d : Settings) (h : wfS d = true) :
    (keysOf d).Nodup := by
  induction d with
  | nil => simp [keysOf]
  | cons p rest ih =>
    obtain ⟨k1, v1⟩ := p
    rcases (wfS_cons_iff k1 v1 rest).mp h with ⟨h1, _, h3⟩
    simp only [keysOf, List.map_cons, List.nodup_cons]
    exact ⟨h1, ih h3⟩

theorem wfS_mem_wfV (d : Settings) (h : wfS d = true) (k : String) (v : CVal)
    (hm : (k, v) ∈ d) : wfV v = true := by
  induction d with
  | nil => simp at hm
  | cons p rest ih =>
    obtain ⟨k1, v1⟩ := p
    rcases (wfS_cons_iff k1 v1 rest).mp h with ⟨_, h2, h3⟩
    rcases List.mem_cons.mp hm with hm1 | hm1
    · cases hm1
      exact h2
    · exact ih h3 hm1

theorem wfS_getKey (d : Settings) (h : wfS d = true) (k : String) (v : CVal)
    (hg : getKey d k = some v) : wfV v = true :=
  wfS_mem_wfV d h k v (getKey_mem d k v hg)

theorem wfS_subMap_getKey (d : Settings) (k : String) (h : wfS d = true) :
    wfS (subMap (getKey d k)) = true := by
  cases hg : getKey d k with
  | none => simp [subMap, wfS]
  | some v =>
    cases v with
    | map m => exact wfS_getKey d h k (.map m) hg
    | str s => simp [subMap, wfS]
    | int n => simp [subMap, wfS]
    | seq xs => simp [subMap, wfS]

/-! ## Merge lemmas -/

theorem getKey_updateDict_of_notMem (d u : Settings) (k : String)
    (h : getKey u k = none) : getKey (updateDict d u) k = getKey d k := by
  induction u generalizing d with
  | nil => simp [updateDict]
  | cons p rest ih =>
    obtain ⟨k1, v1⟩ := p
    by_cases h1 : k1 = k
    · simp [getKey, h1] at h
    · simp only [getKey, if_neg h1] at h
      simp only [updateDict]
      rw [ih _ h, getKey_setKey_ne _ _ _ _ (fun hc => h1 hc.symm)]

theorem getKey_updateDict_of_getKey (d u : Settings) (k : String) (v : CVal)
    (hnd : (keysOf u).Nodup) (h : getKey u k = some v) :
    getKey (updateDict d u) k = some (mergedVal (getKey d k) v) := by
  induction u generalizing d with
  | nil => simp [getKey] at h
  | cons p rest ih =>
    obtain ⟨k1, v1⟩ := p
    simp only [keysOf, List.map_cons, List.nodup_cons] at hnd
    simp only [updateDict]
    by_cases h1 : k1 = k
    · subst h1
      simp [getKey] at h
      subst h
      rw [getKey_updateDict_of_notMem _ rest k1
          ((getKey_eq_none_iff rest k1).mpr hnd.1),
        getKey_setKey_self]
    · simp only [getKey, if_neg h1] at h
      rw [ih _ hnd.2 h, getKey_setKey_ne _ _ _ _ (fun hc => h1 hc.symm)]

theorem mem_keysOf_updateDict (d u : Settings) (k : String) :
    k ∈ keysOf (updateDict d u) ↔ k ∈ keysOf d ∨ k ∈ keysOf u := by
  induction u generalizing d with
  | nil => simp [updateDict, keysOf]
  | cons p rest ih =>
    obtain ⟨k1, v1⟩ := p
    simp only [updateDict]
    rw [ih]
    rw [mem_keysOf_setKey]
    simp only [keysOf, List.map_cons, List.mem_cons]
    tauto

theorem keysOf_updateDict_of_subset (d u : Settings)
    (h : ∀ k ∈ keysOf u, k ∈ keysOf d) : keysOf (updateDict d u) = keysOf d := by
  induction u generalizing d with
  | nil => simp [updateDict]
  | cons p rest ih =>
    obtain ⟨k1, v1⟩ := p
    simp only [updateDict]
    have hk1 : k1 ∈ keysOf d := by
      apply h
      simp [keysOf]
    have hstep : keysOf (setKey d k1 (mergedVal (getKey d k1) v1)) = keysOf d :=
      keysOf_setKey_of_mem d k1 _ hk1
    rw [ih _ fun k hk => ?_, hstep]
    rw [hstep]
    apply h
    simp only [keysOf, List.map_cons, List.mem_cons]
    right
    simpa [keysOf] using hk

theorem nodup_keysOf_updateDict (d u : Settings)
    (h : (keysOf d).Nodup) : (keysOf (updateDict d u)).Nodup := by
  induction u generalizing d with
  | nil => simpa [updateDict]
  | cons p rest ih =>
    obtain ⟨k1, v1⟩ := p
    simp only [updateDict]
    exact ih _ (nodup_keysOf_setKey d k1 _ h)

theorem mem_keysOf_foldl (fs : List Settings) (d : Settings) (k : String) :
    k ∈ keysOf (List.foldl updateDict d fs) ↔
      k ∈ keysOf d ∨ ∃ u ∈ fs, k ∈ keysOf u := by
  induction fs generalizing d with
  | nil => simp
  | cons u rest ih =>
    simp only [List.foldl_cons]
    rw [ih, mem_keysOf_updateDict]
    simp only [List.mem_cons]
    constructor
    · rintro ((h | h) | ⟨u1, hu1, hk1⟩)
      · exact Or.inl h
      · exact Or.inr ⟨u, Or.inl rfl, h⟩
      · exact Or.inr ⟨u1, Or.inr hu1, hk1⟩
    · rintro (h | ⟨u1, (hu1 | hu1), hk1⟩)
      · exact Or.inl (Or.inl h)
      · subst hu1
        exact Or.inl (Or.inr hk1)
      · exact Or.inr ⟨u1, hu1, hk1⟩

theorem keysOf_foldl_of_subset (fs : List Settings) (d : Settings)
    (h : ∀ u ∈ fs, ∀ k ∈ keysOf u, k ∈ keysOf d) :
    keysOf (List.foldl updateDict d fs) = keysOf d := by
  induction fs generalizing d with
  | nil => simp
  | cons u rest ih =>
    simp only [List.foldl_cons]
    have hstep : keysOf (updateDict d u) = keysOf d :=
      keysOf_updateDict_of_subset d u (h u (List.mem_cons_self _ _))
    rw [ih _ fun u1 hu1 k hk => ?_]
    · exact hstep
    · rw [hstep]
      exact h u1 (List.mem_cons_of_mem _ hu1) k hk

theorem nodup_keysOf_foldl (fs : List Settings) (d : Settings)
    (h : (keysOf d).Nodup) : (keysOf (List.foldl updateDict d fs)).Nodup := by
  induction fs generalizing d with
  | nil => simpa
  | cons u rest ih =>
    simp only [List.foldl_cons]
    exact ih _ (nodup_keysOf_updateDict d u h)

theorem settings_ext (d1 d2 : Settings) (h1 : (keysOf d1).Nodup)
    (hk : keysOf d1 = keysOf d2) (hv : ∀ k, getKey d1 k = getKey d2 k) :
    d1 = d2 := by
  induction d1 generalizing d2 with
  | nil =>
    cases d2 with
    | nil => rfl
    | cons p r2 => simp [keysOf] at hk
  | cons p r1 ih =>
    obtain ⟨k1, v1⟩ := p
    cases d2 with
    | nil => simp [keysOf] at hk
    | cons q r2 =>
      obtain ⟨k2, v2⟩ := q
      simp only [keysOf, List.map_cons, List.cons.injEq] at hk
      obtain ⟨hk12, hkr⟩ := hk
      subst hk12
      simp only [keysOf, List.map_cons, List.nodup_cons] at h1
      have hv1 : v1 = v2 := by
        have := hv k1
        simp [getKey] at this
        exact this
      subst hv1
      have hr : r1 = r2 := by
        apply ih r2 h1.2 hkr
        intro k
        by_cases hc : k1 = k
        · subst hc
          have h2 : k1 ∉ keysOf r2 := by
            simp only [keysOf]
            rw [← hkr]
            exact h1.1
          rw [(getKey_eq_none_iff r1 k1).mpr h1.1,
            (getKey_eq_none_iff r2 k1).mpr h2]
        · have := hv k
          simpa only [getKey, if_neg hc] using this
      rw [hr]

/-! ## Per-key view of a sequence of merges -/

/-- Is a settings value a nested mapping? -/
def isMapV : CVal → Bool
  | .map _ => true
  | _ => false

theorem mergedVal_of_not_map (o : Option CVal) (v : CVal)
    (h : isMapV v = false) : mergedVal o v = v := by
  cases v with
  | map m => simp [isMapV] at h
  | str s => simp [mergedVal]
  | int n => simp [mergedVal]
  | seq xs => simp [mergedVal]

/-- The effect on the value stored at one key of merging one fragment: no
binding leaves the value alone, a binding merges it. -/
def applyOp (o : Option CVal) : Option CVal → Option CVal
  | none => o
  | some v => some (mergedVal o v)

/-- The effect on one key of merging a sequence of fragment bindings. -/
def foldOps (o : Option CVal) (ops : List (Option CVal)) : Option CVal :=
  ops.foldl applyOp o

theorem foldOps_nil (o : Option CVal) : foldOps o [] = o := rfl

theorem foldOps_cons (o : Option CVal) (op : Option CVal)
    (ops : List (Option CVal)) :
    foldOps o (op :: ops) = foldOps (applyOp o op) ops := rfl

/-- The nested-mapping payloads of a sequence of per-key ops. -/
def mapsOf (ops : List (Option CVal)) : List Settings :=
  ops.filterMap (fun op =>
    match op with
    | some (.map m) => some m
    | _ => none)

theorem mem_mapsOf (ops : List (Option CVal)) (m : Settings) :
    m ∈ mapsOf ops ↔ some (.map m) ∈ ops := by
  simp only [mapsOf, List.mem_filterMap]
  constructor
  · rintro ⟨op, hop, hmatch⟩
    cases op with
    | none => simp at hmatch
    | some v =>
      cases v with
      | map m1 =>
        simp only [Option.some.injEq] at hmatch
        subst hmatch
        exact hop
      | str s => simp at hmatch
      | int n => simp at hmatch
      | seq xs => simp at hmatch
  · intro h
    exact ⟨some (.map m), h, rfl⟩

theorem mapsOf_cons_none (ops : List (Option CVal)) :
    mapsOf (none :: ops) = mapsOf ops := by
  simp [mapsOf, List.filterMap_cons]

theorem mapsOf_cons_map (m : Settings) (ops : List (Option CVal)) :
    mapsOf (some (.map m) :: ops) = m :: mapsOf ops := by
  simp [mapsOf, List.filterMap_cons]

theorem foldOps_const (ops : List (Option CVal))
    (hsc : ∃ op ∈ ops, ∃ v, op = some v ∧ isMapV v = false)
    (x y : Option CVal) : foldOps x ops = foldOps y ops := by
  induction ops generalizing x y with
  | nil => simp at hsc
  | cons op rest ih =>
    rcases hsc with ⟨op1, hop1, v, hv, hvm⟩
    rcases List.mem_cons.mp hop1 with he | he
    · subst he
      subst hv
      rw [foldOps_cons, foldOps_cons]
      simp only [applyOp, mergedVal_of_not_map _ _ hvm]
    · rw [foldOps_cons, foldOps_cons]
      exact ih ⟨op1, he, v, hv, hvm⟩ _ _

theorem foldOps_of_allNone (ops : List (Option CVal))
    (h : ∀ op ∈ ops, op = none) (x : Option CVal) : foldOps x ops = x := by
  induction ops with
  | nil => rfl
  | cons op rest ih =>
    have hop : op = none := h op (List.mem_cons_self _ _)
    subst hop
    rw [foldOps_cons]
    exact ih (fun op1 h1 => h op1 (List.mem_cons_of_mem _ h1))

theorem foldOps_mapchain (ops : List (Option CVal))
    (h : ∀ op ∈ ops, op = none ∨ ∃ m, op = some (.map m))
    (hne : mapsOf ops ≠ []) (x : Option CVal) :
    foldOps x ops = some (.map (List.foldl updateDict (subMap x) (mapsOf ops))) := by
  induction ops generalizing x with
  | nil => simp [mapsOf] at hne
  | cons op rest ih =>
    rcases h op (List.mem_cons_self _ _) with hop | ⟨m, hop⟩
    · subst hop
      rw [foldOps_cons, mapsOf_cons_none]
      rw [mapsOf_cons_none] at hne
      simp only [applyOp]
      exact ih (fun op1 h1 => h op1 (List.mem_cons_of_mem _ h1)) hne x
    · subst hop
      rw [foldOps_cons, mapsOf_cons_map]
      simp only [applyOp, mergedVal]
      by_cases hre : mapsOf rest = []
      · have hallnone : ∀ op1 ∈ rest, op1 = none := by
          intro op1 h1
          rcases h op1 (List.mem_cons_of_mem _ h1) with h2 | ⟨m1, h2⟩
          · exact h2
          · subst h2
            have : m1 ∈ mapsOf rest := (mem_mapsOf rest m1).mpr h1
            rw [hre] at this
            simp at this
        rw [foldOps_of_allNone rest hallnone, hre]
        simp
      · rw [ih (fun op1 h1 => h op1 (List.mem_cons_of_mem _ h1)) hre]
        simp only [subMap, List.foldl_cons]

/-! ## Nesting depth (termination measure for idempotence) -/

mutual

/-- Mapping-nesting depth of a settings value. -/
def depthV : CVal → Nat
  | .str _ => 0
  | .int _ => 0
  | .seq _ => 0
  | .map m => depthS m + 1

/-- Mapping-nesting depth of a settings dictionary. -/
def depthS : Settings → Nat
  | [] => 0
  | (_, v) :: rest => max (depthV v) (depthS rest)

end

theorem depthV_le_of_mem (u : Settings) (k : String) (v : CVal)
    (h : (k, v) ∈ u) : depthV v ≤ depthS u := by
  induction u with
  | nil => simp at h
  | cons p rest ih =>
    obtain ⟨k1, v1⟩ := p
    rcases List.mem_cons.mp h with h1 | h1
    · cases h1
      exact le_max_left _ _
    · exact le_trans (ih h1) (le_max_right _ _)

theorem depthS_lt_of_getKey_map (u : Settings) (k : String) (m : Settings)
    (h : getKey u k = some (.map m)) : depthS m < depthS u := by
  have h1 := depthV_le_of_mem u k (.map m) (getKey_mem u k _ h)
  simp only [depthV] at h1
  omega

/-- The largest nesting depth among a list of fragments. -/
def maxDepth (fs : List Settings) : Nat :=
  fs.foldr (fun u acc => max (depthS u) acc) 0

theorem depthS_le_maxDepth (fs : List Settings) (u : Settings) (h : u ∈ fs) :
    depthS u ≤ maxDepth fs := by
  induction fs with
  | nil => simp at h
  | cons u1 rest ih =>
    rcases List.mem_cons.mp h with h1 | h1
    · subst h1
      exact le_max_left _ _
    · exact le_trans (ih h1) (le_max_right _ _)

theorem maxDepth_lt (fs : List Settings) (N : Nat)
    (h : ∀ u ∈ fs, depthS u < N) (h0 : 0 < N) : maxDepth fs < N := by
  induction fs with
  | nil => exact h0
  | cons u rest ih =>
    have : max (depthS u) (maxDepth rest) < N :=
      max_lt (h u (List.mem_cons_self _ _))
        (ih (fun u1 h1 => h u1 (List.mem_cons_of_mem _ h1)))
    exact this

/-! ## Per-key characterisation of a fold of merges -/

theorem getKey_foldl_updateDict (fs : List Settings) (d : Settings)
    (k : String) (h : ∀ u ∈ fs, (keysOf u).Nodup) :
    getKey (List.foldl updateDict d fs) k =
      foldOps (getKey d k) (fs.map (fun u => getKey u k)) := by
  induction fs generalizing d with
  | nil => rfl
  | cons u rest ih =>
    simp only [List.foldl_cons, List.map_cons, foldOps_cons]
    rw [ih _ (fun u1 h1 => h u1 (List.mem_cons_of_mem _ h1))]
    have hstep : getKey (updateDict d u) k = applyOp (getKey d k) (getKey u k) := by
      cases hk : getKey u k with
      | none =>
        rw [getKey_updateDict_of_notMem d u k hk]
        rfl
      | some v =>
        rw [getKey_updateDict_of_getKey d u k v (h u (List.mem_cons_self _ _)) hk]
        rfl
    rw [hstep]

/-! ## Idempotence of a fold of merges -/

theorem subMap_some_map (m : Settings) : subMap (some (.map m)) = m := rfl

theorem foldl_updateDict_idem (N : Nat) :
    ∀ (fs : List Fragment) (d : Settings), maxDepth fs ≤ N →
      (∀ u ∈ fs, wfS u = true) → wfS d = true →
      List.foldl updateDict (List.foldl updateDict d fs) fs =
        List.foldl updateDict d fs := by
  induction N using Nat.strong_induction_on with
  | _ N ih =>
    intro fs d hN hfs hd
    have hndfrag : ∀ u ∈ fs, (keysOf u).Nodup :=
      fun u hu => wfS_nodupKeys u (hfs u hu)
    have hndd : (keysOf d).Nodup := wfS_nodupKeys d hd
    have hndD : (keysOf (List.foldl updateDict d fs)).Nodup :=
      nodup_keysOf_foldl fs d hndd
    have hndE :
        (keysOf (List.foldl updateDict (List.foldl updateDict d fs) fs)).Nodup :=
      nodup_keysOf_foldl fs _ hndD
    have hkeys :
        keysOf (List.foldl updateDict (List.foldl updateDict d fs) fs) =
          keysOf (List.foldl updateDict d fs) := by
      apply keysOf_foldl_of_subset
      intro u hu k hk
      exact (mem_keysOf_foldl fs d k).mpr (Or.inr ⟨u, hu, hk⟩)
    apply settings_ext _ _ hndE hkeys
    intro k
    rw [getKey_foldl_updateDict fs (List.foldl updateDict d fs) k hndfrag,
      getKey_foldl_updateDict fs d k hndfrag]
    by_cases hsc :
        ∃ op ∈ fs.map (fun u => getKey u k), ∃ v, op = some v ∧ isMapV v = false
    · exact foldOps_const _ hsc _ _
    · have hnm : ∀ op ∈ fs.map (fun u => getKey u k),
          op = none ∨ ∃ m, op = some (.map m) := by
        intro op hop
        cases op with
        | none => exact Or.inl rfl
        | some v =>
          cases v with
          | map m => exact Or.inr ⟨m, rfl⟩
          | str s => exact absurd ⟨some (.str s), hop, .str s, rfl, rfl⟩ hsc
          | int n => exact absurd ⟨some (.int n), hop, .int n, rfl, rfl⟩ hsc
          | seq xs => exact absurd ⟨some (.seq xs), hop, .seq xs, rfl, rfl⟩ hsc
      by_cases hms : mapsOf (fs.map (fun u => getKey u k)) = []
      · have hall : ∀ op ∈ fs.map (fun u => getKey u k), op = none := by
          intro op hop
          rcases hnm op hop with h1 | ⟨m, h1⟩
          · exact h1
          · subst h1
            have : m ∈ mapsOf (fs.map (fun u => getKey u k)) :=
              (mem_mapsOf _ m).mpr hop
            rw [hms] at this
            simp at this
        rw [foldOps_of_allNone _ hall, foldOps_of_allNone _ hall]
      · have hfrommap : ∀ m ∈ mapsOf (fs.map (fun u => getKey u k)),
            ∃ u ∈ fs, getKey u k = some (.map m) := by
          intro m hm
          have := (mem_mapsOf _ m).mp hm
          rcases List.mem_map.mp this with ⟨u, hu, hu2⟩
          exact ⟨u, hu, hu2⟩
        have hwfms : ∀ m ∈ mapsOf (fs.map (fun u => getKey u k)), wfS m = true := by
          intro m hm
          rcases hfrommap m hm with ⟨u, hu, hg⟩
          exact wfS_getKey u (hfs u hu) k (.map m) hg
        have hdepth : ∀ m ∈ mapsOf (fs.map (fun u => getKey u k)), depthS m < N := by
          intro m hm
          rcases hfrommap m hm with ⟨u, hu, hg⟩
          exact lt_of_lt_of_le (depthS_lt_of_getKey_map u k m hg)
            (le_trans (depthS_le_maxDepth fs u hu) hN)
        have hNpos : 0 < N := by
          rcases List.exists_mem_of_ne_nil _ hms with ⟨m, hm⟩
          exact lt_of_le_of_lt (Nat.zero_le _) (hdepth m hm)
        have hlt : maxDepth (mapsOf (fs.map (fun u => getKey u k))) < N :=
          maxDepth_lt _ N hdepth hNpos
        have hrec := ih _ hlt (mapsOf (fs.map (fun u => getKey u k)))
          (subMap (getKey d k)) le_rfl hwfms (wfS_subMap_getKey d k hd)
        have h1 := foldOps_mapchain (fs.map (fun u => getKey u k)) hnm hms
          (getKey d k)
        rw [foldOps_mapchain (fs.map (fun u => getKey u k)) hnm hms
          (foldOps (getKey d k) (fs.map (fun u => getKey u k))), h1,
          subMap_some_map, hrec]

/-! ## Resolver as a fold of merges -/

theorem foldl_axisStep_eq (sel : List (String × String)) (axes : AxisCatalog)
    (b : Settings) :
    List.foldl (axisStep sel) b axes =
      List.foldl updateDict b (axes.filterMap
        (fun e => (getStr sel e.1).bind (fun valName => getStr e.2 valName))) := by
  induction axes generalizing b with
  | nil => rfl
  | cons e rest ih =>
    obtain ⟨a, vm⟩ := e
    simp only [List.foldl_cons, List.filterMap_cons]
    cases h1 : getStr sel a with
    | none =>
      simp only [axisStep, h1, Option.none_bind]
      exact ih b
    | some valName =>
      cases h2 : getStr vm valName with
      | none =>
        simp only [axisStep, h1, h2, Option.some_bind]
        exact ih b
      | some frag =>
        simp only [axisStep, h1, h2, Option.some_bind, List.foldl_cons]
        exact ih (updateDict b frag)

theorem resolveRow_eq_foldl (b : Settings) (cat : Catalog) (row : ScenarioRow) :
    resolveRow b cat row = List.foldl updateDict b (applicableFrags cat row) := by
  unfold resolveRow applicableFrags
  exact foldl_axisStep_eq _ _ b

/-! ## Claims -/

/-- C1: the deep merge uses key-replacement semantics: a nested-mapping
fragment value is merged recursively into the existing mapping at that key
(keys the fragment does not mention keep their baseline values), while a
scalar or sequence fragment value replaces the existing value wholesale; on
the concrete inputs of the spec, the resolver keeps `coal: reference` while
switching `naturalgas` to `high_resource` for case p2 in 2030. -/
theorem claim_C1_key_replacement_merge :
    (∀ (d : Settings) (k : String) (v : CVal), isMapV v = false →
      getKey (updateDict d [(k, v)]) k = some v) ∧
    (∀ (d : Settings) (k : String) (dm m : Settings),
      getKey d k = some (.map dm) →
      getKey (updateDict d [(k, .map m)]) k = some (.map (updateDict dm m))) ∧
    (∀ (dm m : Settings) (k2 : String), getKey m k2 = none →
      getKey (updateDict dm m) k2 = getKey dm k2) ∧
    resolveAll
      [("aeo_fuel_scenarios",
        .map [("naturalgas", .str "reference"), ("coal", .str "reference")])]
      [(2030, [("ng_price", [("low",
        [("aeo_fuel_scenarios", .map [("naturalgas", .str "high_resource")])])])])]
      [⟨"p2", 2030, [("ng_price", "low")]⟩] =
      [((2030, "p2"),
        [("aeo_fuel_scenarios",
          .map [("naturalgas", .str "high_resource"), ("coal", .str "reference")])])] := by
  refine ⟨?_, ?_, ?_, rfl⟩
  · intro d k v hv
    simp only [updateDict, mergedVal_of_not_map _ _ hv]
    exact getKey_setKey_self d k v
  · intro d k dm m hd
    simp only [updateDict, mergedVal, hd, subMap]
    exact getKey_setKey_self _ k _
  · intro dm m k2 h
    exact getKey_updateDict_of_notMem dm m k2 h

/-- Witness for C1: the three merge clauses at concrete inputs. -/
theorem claim_C1_key_replacement_merge_witness :
    getKey (updateDict [("x", CVal.int 1)] [("x", CVal.int 2)]) "x"
      = some (CVal.int 2) ∧
    getKey (updateDict [("a", CVal.map [("b", CVal.int 1)])]
        [("a", CVal.map [("c", CVal.int 2)])]) "a"
      = some (CVal.map (updateDict [("b", CVal.int 1)] [("c", CVal.int 2)])) ∧
    getKey (updateDict [("b", CVal.int 1)] [("c", CVal.int 2)]) "z"
      = getKey [("b", CVal.int 1)] "z" :=
  ⟨claim_C1_key_replacement_merge.1 [("x", CVal.int 1)] "x" (CVal.int 2) rfl,
    claim_C1_key_replacement_merge.2.1 [("a", CVal.map [("b", CVal.int 1)])] "a"
      [("b", CVal.int 1)] [("c", CVal.int 2)] rfl,
    claim_C1_key_replacement_merge.2.2.1 [("b", CVal.int 1)] [("c", CVal.int 2)]
      "z" rfl⟩

/-- C2: when the axis declared first (A) and the axis declared after it (B)
in the catalog for a year both override the same parameter path, resolution
raises no conflict error and the resolved value at that path is the fragment value of B
(last-write-wins in catalog declaration order), not that of A. -/
theorem claim_C2_last_write_wins (b : Settings) (cid : String) (yr : Int)
    (sel : List (String × String)) (axisA axisB valA valB : String)
    (avA avB : List (String × Fragment)) (fragA fragB : Fragment)
    (P : String) (vA vB : CVal) (cat : Catalog)
    (hcat : getYear cat yr = some [(axisA, avA), (axisB, avB)])
    (hselA : getStr sel axisA = some valA)
    (hselB : getStr sel axisB = some valB)
    (hfragA : getStr avA valA = some fragA)
    (hfragB : getStr avB valB = some fragB)
    (hPA : getKey fragA P = some vA)
    (hPB : getKey fragB P = some vB)
    (hnd : (keysOf fragB).Nodup)
    (hv : isMapV vB = false) :
    getKey (resolveRow b cat ⟨cid, yr, sel⟩) P = some vB ∧
    (∀ ys, declaredPeriods b = .ok ys → yr ∈ ys →
      resolveRowChecked b cat ⟨cid, yr, sel⟩ = .ok (resolveRow b cat ⟨cid, yr, sel⟩)) ∧
    (vA ≠ vB → getKey (resolveRow b cat ⟨cid, yr, sel⟩) P ≠ some vA) := by
  have hres : resolveRow b cat ⟨cid, yr, sel⟩ =
      updateDict (updateDict b fragA) fragB := by
    unfold resolveRow
    simp only [hcat, Option.getD_some, List.foldl_cons, List.foldl_nil]
    simp only [axisStep, hselA, hselB, hfragA, hfragB]
  have hget : getKey (resolveRow b cat ⟨cid, yr, sel⟩) P = some vB := by
    rw [hres, getKey_updateDict_of_getKey _ fragB P vB hnd hPB,
      mergedVal_of_not_map _ _ hv]
  refine ⟨hget, ?_, ?_⟩
  · intro ys hys hmem
    unfold resolveRowChecked
    rw [hys]
    simp only [if_pos hmem]
  · intro hne
    rw [hget]
    intro hc
    rw [Option.some.injEq] at hc
    exact hne hc.symm

/-- Witness for C2: two axes overriding the same parameter `p`; the
later-declared axis value 2 wins and no error is raised. -/
theorem claim_C2_last_write_wins_witness :
    getKey (resolveRow [("p", CVal.int 0)]
      [(2030, [("A", [("a1", [("p", CVal.int 1)])]),
        ("B", [("b1", [("p", CVal.int 2)])])])]
      ⟨"c1", 2030, [("A", "a1"), ("B", "b1")]⟩) "p" = some (CVal.int 2) :=
  (claim_C2_last_write_wins [("p", CVal.int 0)] "c1" 2030
    [("A", "a1"), ("B", "b1")] "A" "B" "a1" "b1"
    [("a1", [("p", CVal.int 1)])] [("b1", [("p", CVal.int 2)])]
    [("p", CVal.int 1)] [("p", CVal.int 2)] "p" (CVal.int 1) (CVal.int 2)
    [(2030, [("A", [("a1", [("p", CVal.int 1)])]),
      ("B", [("b1", [("p", CVal.int 2)])])])]
    rfl rfl rfl rfl rfl rfl rfl (by simp [keysOf]) rfl).1

/-- C3: a scenario row whose (planning_year, axis, value) triple has no
matching override fragment causes no error: an axis with no selection or no
registered fragment is a silent no-op, a year absent from the catalog leaves
the baseline untouched, and a row over declared periods resolves to `.ok`. -/
theorem claim_C3_absent_override_noop :
    (∀ (sel : List (String × String)) (cfg : Settings) (a : String)
      (vm : List (String × Fragment)), getStr sel a = none →
      axisStep sel cfg (a, vm) = cfg) ∧
    (∀ (sel : List (String × String)) (cfg : Settings) (a : String)
      (vm : List (String × Fragment)) (valName : String),
      getStr sel a = some valName → getStr vm valName = none →
      axisStep sel cfg (a, vm) = cfg) ∧
    (∀ (b : Settings) (cat : Catalog) (row : ScenarioRow),
      getYear cat row.planning_year = none → resolveRow b cat row = b) ∧
    (∀ (b : Settings) (cat : Catalog) (row : ScenarioRow) (ys : List Int),
      declaredPeriods b = .ok ys → row.planning_year ∈ ys →
      resolveRowChecked b cat row = .ok (resolveRow b cat row)) := by
  refine ⟨?_, ?_, ?_, ?_⟩
  · intro sel cfg a vm h
    simp [axisStep, h]
  · intro sel cfg a vm valName h1 h2
    simp [axisStep, h1, h2]
  · intro b cat row h
    unfold resolveRow
    rw [h]
    rfl
  · intro b cat row ys h1 h2
    unfold resolveRowChecked
    rw [h1]
    simp only [if_pos h2]

/-- Witness for C3: a selected axis value with no registered fragment and a
planning year missing from the catalog are both silent no-ops, and a valid
row resolves without error. -/
theorem claim_C3_absent_override_noop_witness :
    axisStep [("B", "b1")] [("p", CVal.int 0)] ("A", [("a1", [])]) =
      [("p", CVal.int 0)] ∧
    axisStep [("A", "zz")] [("p", CVal.int 0)] ("A", [("a1", [])]) =
      [("p", CVal.int 0)] ∧
    resolveRow [("p", CVal.int 0)] [(2045, [])] ⟨"c1", 2030, [("A", "a1")]⟩ =
      [("p", CVal.int 0)] ∧
    resolveRowChecked [("model_year", CVal.int 2030),
        ("model_first_planning_year", CVal.int 2020)] [] ⟨"c1", 2030, []⟩ =
      .ok (resolveRow [("model_year", CVal.int 2030),
        ("model_first_planning_year", CVal.int 2020)] [] ⟨"c1", 2030, []⟩) :=
  ⟨claim_C3_absent_override_noop.1 [("B", "b1")] [("p", CVal.int 0)] "A"
      [("a1", [])] rfl,
    claim_C3_absent_override_noop.2.1 [("A", "zz")] [("p", CVal.int 0)] "A"
      [("a1", [])] "zz" rfl rfl,
    claim_C3_absent_override_noop.2.2.1 [("p", CVal.int 0)] [(2045, [])]
      ⟨"c1", 2030, [("A", "a1")]⟩ rfl,
    claim_C3_absent_override_noop.2.2.2 [("model_year", CVal.int 2030),
        ("model_first_planning_year", CVal.int 2020)] [] ⟨"c1", 2030, []⟩
      [2030] rfl (List.mem_singleton_self 2030)⟩

/-- C4: a (case_id, planning_year) pair with empty axis selections resolves
to exactly the baseline configuration.  (In this embedding configurations
are immutable values, so the resolved copy shares no mutable substructure
with the baseline by construction.) -/
theorem claim_C4_empty_selections_baseline (b : Settings) (cat : Catalog)
    (row : ScenarioRow) (h : row.axis_selections = []) :
    resolveRow b cat row = b := by
  rw [resolveRow_eq_foldl]
  have happ : applicableFrags cat row = [] := by
    unfold applicableFrags
    rw [h]
    apply List.filterMap_eq_nil_iff.mpr
    intro e he
    rfl
  rw [happ]
  rfl

/-- Witness for C4: a row with no axis selections yields the baseline even
when the catalog has overrides registered for its year. -/
theorem claim_C4_empty_selections_baseline_witness :
    resolveRow [("p", CVal.int 0)] [(2030, [("A", [("a1", [("p", CVal.int 1)])])])]
      ⟨"c1", 2030, []⟩ = [("p", CVal.int 0)] :=
  claim_C4_empty_selections_baseline [("p", CVal.int 0)]
    [(2030, [("A", [("a1", [("p", CVal.int 1)])])])] ⟨"c1", 2030, []⟩ rfl

/-- C5: frame property — a parameter not bound by any override fragment
applicable to a row keeps its baseline value in the resolved
configuration. -/
theorem claim_C5_untouched_param_unchanged (b : Settings) (cat : Catalog)
    (row : ScenarioRow) (P : String)
    (h : ∀ f ∈ applicableFrags cat row, getKey f P = none) :
    getKey (resolveRow b cat row) P = getKey b P := by
  rw [resolveRow_eq_foldl]
  have hgen : ∀ (fs : List Fragment) (d : Settings),
      (∀ f ∈ fs, getKey f P = none) →
      getKey (List.foldl updateDict d fs) P = getKey d P := by
    intro fs
    induction fs with
    | nil => intro d hfs; rfl
    | cons u rest ih =>
      intro d hfs
      simp only [List.foldl_cons]
      rw [ih _ (fun f hf => hfs f (List.mem_cons_of_mem _ hf)),
        getKey_updateDict_of_notMem d u P (hfs u (List.mem_cons_self _ _))]
  exact hgen _ b h

/-- Witness for C5: an override that only touches `q` leaves `p` at its
baseline value. -/
theorem claim_C5_untouched_param_unchanged_witness :
    getKey (resolveRow [("p", CVal.int 5), ("q", CVal.int 0)]
      [(2030, [("A", [("a1", [("q", CVal.int 1)])])])]
      ⟨"c1", 2030, [("A", "a1")]⟩) "p" =
      getKey [("p", CVal.int 5), ("q", CVal.int 0)] "p" :=
  claim_C5_untouched_param_unchanged [("p", CVal.int 5), ("q", CVal.int 0)]
    [(2030, [("A", [("a1", [("q", CVal.int 1)])])])] ⟨"c1", 2030, [("A", "a1")]⟩
    "p" (by
      intro f hf
      have hf1 : f = [("q", CVal.int 1)] := by
        simpa [applicableFrags, getYear, getStr] using hf
      rw [hf1]
      rfl)

/-- C6: resolution is idempotent per row: feeding the resolved
configuration of a row back through the resolution of that same row (same baseline merge
sequence, same override catalog) returns it unchanged, for any well-formed
baseline and override fragments (duplicate-free keys, as Python dicts
guarantee). -/
theorem claim_C6_resolution_idempotent (b : Settings) (cat : Catalog)
    (row : ScenarioRow) (hb : wfS b = true)
    (hf : ∀ f ∈ applicableFrags cat row, wfS f = true) :
    resolveRow (resolveRow b cat row) cat row = resolveRow b cat row := by
  rw [resolveRow_eq_foldl b cat row, resolveRow_eq_foldl _ cat row]
  exact foldl_updateDict_idem (maxDepth (applicableFrags cat row))
    (applicableFrags cat row) b le_rfl hf hb

/-- Witness for C6: resolving the concrete scenario of the spec twice yields the
same configuration as resolving it once. -/
theorem claim_C6_resolution_idempotent_witness :
    resolveRow (resolveRow
      [("aeo_fuel_scenarios",
        .map [("naturalgas", .str "reference"), ("coal", .str "reference")])]
      [(2030, [("ng_price", [("low",
        [("aeo_fuel_scenarios", .map [("naturalgas", .str "high_resource")])])])])]
      ⟨"p2", 2030, [("ng_price", "low")]⟩)
      [(2030, [("ng_price", [("low",
        [("aeo_fuel_scenarios", .map [("naturalgas", .str "high_resource")])])])])]
      ⟨"p2", 2030, [("ng_price", "low")]⟩ =
    resolveRow
      [("aeo_fuel_scenarios",
        .map [("naturalgas", .str "reference"), ("coal", .str "reference")])]
      [(2030, [("ng_price", [("low",
        [("aeo_fuel_scenarios", .map [("naturalgas", .str "high_resource")])])])])]
      ⟨"p2", 2030, [("ng_price", "low")]⟩ :=
  claim_C6_resolution_idempotent _ _ _ rfl (by
    intro f hf
    have hf1 : f = [("aeo_fuel_scenarios",
        CVal.map [("naturalgas", CVal.str "high_resource")])] := by
      simpa [applicableFrags, getYear, getStr] using hf
    rw [hf1]
    rfl)

/-- C7: `model_year` and `model_first_planning_year` sequences of unequal
length always produce a shape-mismatch Issue at validation, and the
planning-period reader refuses with an error instead of silently truncating
either list to the shorter length. -/
theorem claim_C7_shape_mismatch_always_flagged (cid : String) (yr : Int)
    (cfg : Settings) (ys fs : List Int)
    (h1 : getIntList (getKey cfg "model_year") = some ys)
    (h2 : getIntList (getKey cfg "model_first_planning_year") = some fs)
    (hne : ys.length ≠ fs.length) :
    (∃ i ∈ validateOne cid yr cfg, i.kind = ErrKind.shapeMismatchError) ∧
    declaredPeriods cfg =
      .error "model_year and model_first_planning_year have mismatched lengths" := by
  constructor
  · simp only [validateOne, h1, h2]
    rw [if_neg hne]
    exact ⟨_, List.mem_singleton_self _, rfl⟩
  · simp only [declaredPeriods, h1, h2]
    rw [if_neg hne]

/-- Witness for C7: a two-element `model_year` paired with a one-element
`model_first_planning_year` is flagged and refused. -/
theorem claim_C7_shape_mismatch_always_flagged_witness :
    (∃ i ∈ validateOne "c1" 2030
      [("model_year", CVal.seq [CVal.int 2030, CVal.int 2045]),
        ("model_first_planning_year", CVal.seq [CVal.int 2020])],
      i.kind = ErrKind.shapeMismatchError) ∧
    declaredPeriods
      [("model_year", CVal.seq [CVal.int 2030, CVal.int 2045]),
        ("model_first_planning_year", CVal.seq [CVal.int 2020])] =
      .error "model_year and model_first_planning_year have mismatched lengths" :=
  claim_C7_shape_mismatch_always_flagged "c1" 2030
    [("model_year", CVal.seq [CVal.int 2030, CVal.int 2045]),
      ("model_first_planning_year", CVal.seq [CVal.int 2020])]
    [2030, 2045] [2020] rfl rfl (by decide)

/-- C8: batch resolution has partial-failure semantics: every row is
processed and carries its own result, a row whose planning year is outside
the declared planning periods (or whose planning-year lists are malformed)
fails with a descriptive error attached to that row while the other rows
still resolve, and the failing rows are collected together at the end. -/
theorem claim_C8_partial_failure (b : Settings) (cat : Catalog)
    (rows : List ScenarioRow) :
    (resolveBatch b cat rows).length = rows.length ∧
    (∀ r ∈ rows, (r, resolveRowChecked b cat r) ∈ resolveBatch b cat rows) ∧
    (∀ (r : ScenarioRow) (ys : List Int), declaredPeriods b = .ok ys →
      r.planning_year ∉ ys →
      resolveRowChecked b cat r = .error ("planning_year "
        ++ toString r.planning_year ++ " of case " ++ r.case_id
        ++ " is not among the declared planning periods")) ∧
    (∀ (r : ScenarioRow) (ys : List Int), declaredPeriods b = .ok ys →
      r.planning_year ∈ ys →
      resolveRowChecked b cat r = .ok (resolveRow b cat r)) ∧
    (∀ e, declaredPeriods b = .error e →
      ∀ r : ScenarioRow, resolveRowChecked b cat r = .error e) ∧
    failedRows (resolveBatch b cat rows) =
      rows.filterMap (fun r =>
        match resolveRowChecked b cat r with
        | .error e => some (r, e)
        | .ok _ => none) := by
  refine ⟨?_, ?_, ?_, ?_, ?_, ?_⟩
  · simp [resolveBatch]
  · intro r hr
    exact List.mem_map_of_mem _ hr
  · intro r ys h1 h2
    unfold resolveRowChecked
    rw [h1]
    simp only [if_neg h2]
  · intro r ys h1 h2
    unfold resolveRowChecked
    rw [h1]
    simp only [if_pos h2]
  · intro e h1 r
    unfold resolveRowChecked
    rw [h1]
  · simp only [failedRows, resolveBatch]
    rw [List.filterMap_map]
    rfl

/-- Witness for C8: in a batch of three rows over declared periods
[2030, 2045], the middle row (year 2050) fails with a descriptive error
while the other rows resolve, and its result is attached to its row. -/
theorem claim_C8_partial_failure_witness :
    resolveRowChecked [("model_year", CVal.seq [CVal.int 2030, CVal.int 2045]),
        ("model_first_planning_year", CVal.seq [CVal.int 2020, CVal.int 2031])]
      [] ⟨"c2", 2050, []⟩ = .error ("planning_year " ++ toString (2050 : Int)
        ++ " of case " ++ "c2" ++ " is not among the declared planning periods") ∧
    resolveRowChecked [("model_year", CVal.seq [CVal.int 2030, CVal.int 2045]),
        ("model_first_planning_year", CVal.seq [CVal.int 2020, CVal.int 2031])]
      [] ⟨"c1", 2030, []⟩ = .ok (resolveRow
        [("model_year", CVal.seq [CVal.int 2030, CVal.int 2045]),
          ("model_first_planning_year", CVal.seq [CVal.int 2020, CVal.int 2031])]
        [] ⟨"c1", 2030, []⟩) ∧
    (⟨"c2", 2050, []⟩, resolveRowChecked
      [("model_year", CVal.seq [CVal.int 2030, CVal.int 2045]),
        ("model_first_planning_year", CVal.seq [CVal.int 2020, CVal.int 2031])]
      [] ⟨"c2", 2050, []⟩) ∈ resolveBatch
      [("model_year", CVal.seq [CVal.int 2030, CVal.int 2045]),
        ("model_first_planning_year", CVal.seq [CVal.int 2020, CVal.int 2031])]
      [] [⟨"c1", 2030, []⟩, ⟨"c2", 2050, []⟩, ⟨"c3", 2045, []⟩] :=
  ⟨(claim_C8_partial_failure _ [] []).2.2.1 ⟨"c2", 2050, []⟩ [2030, 2045]
      rfl (by decide),
    (claim_C8_partial_failure _ [] []).2.2.2.1 ⟨"c1", 2030, []⟩ [2030, 2045]
      rfl (by decide),
    (claim_C8_partial_failure _ []
      [⟨"c1", 2030, []⟩, ⟨"c2", 2050, []⟩, ⟨"c3", 2045, []⟩]).2.1
      ⟨"c2", 2050, []⟩ (List.mem_cons_of_mem _ (List.mem_cons_self _ _))⟩

/-- C9: the validator is a total function over the batch of resolved
configurations: it always returns a list of Issues (findings, never an
exception in this embedding), and the findings of every configuration in
the batch appear in the combined report, so everything is reported
together instead of stopping at the first problem. -/
theorem claim_C9_validator_total_and_batched :
    (∀ (configs : List (String × Int × Settings)) (c : String × Int × Settings),
      c ∈ configs → ∀ i ∈ validateOne c.1 c.2.1 c.2.2, i ∈ validate configs) ∧
    validate [] = [] ∧
    (∀ (c : String × Int × Settings) (configs : List (String × Int × Settings)),
      validate (c :: configs) = validateOne c.1 c.2.1 c.2.2 ++ validate configs) := by
  refine ⟨?_, rfl, ?_⟩
  · intro configs c hc i hi
    exact List.mem_flatMap.mpr ⟨c, hc, hi⟩
  · intro c configs
    simp [validate]

/-- Witness for C9: a shape-mismatch finding of one configuration appears
in the report for the whole batch. -/
theorem claim_C9_validator_total_and_batched_witness :
    (⟨ErrKind.shapeMismatchError, "error", "c1", 2030,
      "model_year and model_first_planning_year have mismatched lengths"⟩ : Issue) ∈
    validate [("c1", 2030,
      [("model_year", CVal.seq [CVal.int 2030, CVal.int 2045]),
        ("model_first_planning_year", CVal.seq [CVal.int 2020])])] :=
  claim_C9_validator_total_and_batched.1
    [("c1", 2030,
      [("model_year", CVal.seq [CVal.int 2030, CVal.int 2045]),
        ("model_first_planning_year", CVal.seq [CVal.int 2020])])]
    ("c1", 2030,
      [("model_year", CVal.seq [CVal.int 2030, CVal.int 2045]),
        ("model_first_planning_year", CVal.seq [CVal.int 2020])])
    (List.mem_singleton_self _) _ (List.mem_singleton_self _)

/-- C10 as stated is false: an override fragment that replaces a
mapping-valued parameter wholesale with a scalar deletes the baseline keys
nested beneath that parameter.  Here baseline key path `a.x` is present in
the baseline but absent from the resolved configuration. -/
theorem claim_C10_counterexample :
    pathPresent [("a", CVal.map [("x", CVal.int 1)])] ["a", "x"] = true ∧
    pathPresent (resolveRow [("a", CVal.map [("x", CVal.int 1)])]
      [(2030, [("ax", [("lo", [("a", CVal.int 2)])])])]
      ⟨"p1", 2030, [("ax", "lo")]⟩) ["a", "x"] = false :=
  ⟨rfl, rfl⟩

/-- C10 (amended): the merge never deletes keys of the mapping being
merged into: at the top level (and at every nesting level at which the
merge recurses, each recursive step being an `updateDict` call) the key set
of the merged result is a superset of the existing key set, and hence every
top-level baseline key is present in every resolved configuration.  Keys
nested beneath a parameter are preserved only as long as no fragment
replaces that parameter wholesale. -/
theorem claim_C10_amended_keys_superset :
    (∀ (d u : Settings) (k : String), k ∈ keysOf d →
      k ∈ keysOf (updateDict d u)) ∧
    (∀ (b : Settings) (cat : Catalog) (row : ScenarioRow) (k : String),
      k ∈ keysOf b → k ∈ keysOf (resolveRow b cat row)) := by
  constructor
  · intro d u k h
    exact (mem_keysOf_updateDict d u k).mpr (Or.inl h)
  · intro b cat row k h
    rw [resolveRow_eq_foldl]
    exact (mem_keysOf_foldl _ b k).mpr (Or.inl h)

/-- Witness for C10 (amended): the baseline key `a` survives into the
resolved configuration of the counterexample scenario. -/
theorem claim_C10_amended_keys_superset_witness :
    "a" ∈ keysOf (resolveRow [("a", CVal.map [("x", CVal.int 1)])]
      [(2030, [("ax", [("lo", [("a", CVal.int 2)])])])]
      ⟨"p1", 2030, [("ax", "lo")]⟩) :=
  claim_C10_amended_keys_superset.2 [("a", CVal.map [("x", CVal.int 1)])]
    [(2030, [("ax", [("lo", [("a", CVal.int 2)])])])]
    ⟨"p1", 2030, [("ax", "lo")]⟩ "a" (List.mem_singleton_self "a")
